import Mathlib

/-!
Shallow embedding of the fixed-arena memory allocator in src/mpool.c
(repository 2023q1_Homework6_quiz5), specialised to an LP64 platform:
sizeof(int) = 4, sizeof(char *) = 8, so in mpool.c's enum
word_size = 4 and header_size = sizeof(block_t) = 24 (a 4-byte int, 4
bytes of padding, and a 16-byte union holding two pointers), and the
payload member of block_t sits at byte offset 8 inside the block.

Addresses and sizes are modelled as unbounded Int; the runs examined
here stay far below INT_MAX / the address-space size, so 32-bit int
wrap-around never fires on them.  Pointer arithmetic is modelled at
byte granularity, faithfully reproducing the scaling the C performs:
the expression (&ret->payload + _size) adds _size * sizeof(char *)
bytes to the address of the payload member, i.e. base + 8 + 8 * _size.

The doubly linked free list (list.h) is modelled as a Lean list held in
list order; list_add prepends, list_replace substitutes in place,
list_insert_before inserts at an index, list_del removes.  The headers
of currently allocated blocks (which the C keeps as ints in arena
memory) are modelled as the list of allocated blocks.  pool_realloc
and pool_calloc additionally report how many payload bytes they copied
(memcpy) or zeroed (memset), so that the byte-copy behaviour is
observable without a full byte-level memory model.
-/

namespace MPool

/-- word_size = sizeof(int) on LP64. -/
def word_size : Int := 4

/-- header_size = sizeof(block_t) on LP64. -/
def header_size : Int := 24

/-- Byte offset of the payload member inside block_t on LP64. -/
def payload_off : Int := 8

/-- sizeof(char *) on LP64: the stride of pointer arithmetic on &ret->payload. -/
def ptr_size : Int := 8

/-- A block header: base address of the block_t and its size field. -/
structure Block where
  addr : Int
  size : Int
deriving DecidableEq

/-- Address computed by (&b->payload + b->size), as used by block_try_merge. -/
def blockEnd (b : Block) : Int := b.addr + payload_off + ptr_size * b.size

/-- Allocator state: the free list (in list order), the headers of the
currently allocated blocks, and the two global counters pool_size and
pool_free_space. -/
structure PoolState where
  free : List Block
  alloc : List Block
  pool_size : Int
  free_space : Int
deriving DecidableEq

/-- State at program start: empty free list (LIST_HEAD), zero counters. -/
def initState : PoolState := ⟨[], [], 0, 0⟩

/-- pool_init from mpool.c.  Fails on a null address or size <= header_size;
otherwise sets both counters to size - word_size, writes a header of that
size at addr and list_add-prepends it to the free list. -/
def pool_init (addr size : Int) (s : PoolState) : Bool × PoolState :=
  if addr = 0 then (false, s)
  else if size ≤ header_size then (false, s)
  else (true,
    { free := ⟨addr, size - word_size⟩ :: s.free
      alloc := s.alloc
      pool_size := size - word_size
      free_space := size - word_size })

/-- round_up from mpool.c: for the positive sizes that reach it,
((x + 3) >> 2) << 2 equals ((x + 3) / 4) * 4. -/
def round_up (x : Int) : Int := ((x + 3) / 4) * 4

/-- get_loc_to_place from mpool.c: first-fit scan of the free list for a
block with size >= size + header_size, where size is the argument the
caller passed (pool_malloc passes the UNROUNDED request).  Returns the
nodes before the hit, the hit, and the nodes after it. -/
def get_loc_to_place (size : Int) : List Block → Option (List Block × Block × List Block)
  | [] => none
  | b :: rest =>
    if b.size ≥ size + header_size then some ([], b, rest)
    else
      match get_loc_to_place size rest with
      | none => none
      | some (pre, r, post) => some (b :: pre, r, post)

/-- pool_malloc from mpool.c.  Rejects size <= 0, applies the fast-path
admission check pool_free_space <= _size + header_size, then first-fit
searches with the unrounded size.  On a hit at ret it writes a new header
at (&ret->payload + _size) (byte address ret.addr + 8 + 8 * _size) with
size ret.size - word_size - _size, rewrites ret's size to _size,
list_replaces ret by the new block in place, debits free_space by
_size + word_size, and returns &ret->payload. -/
def pool_malloc (size : Int) (s : PoolState) : Option Int × PoolState :=
  if size ≤ 0 then (none, s)
  else
    let rsize := round_up size
    if s.free_space ≤ rsize + header_size then (none, s)
    else
      match get_loc_to_place size s.free with
      | none => (none, s)
      | some (pre, ret, post) =>
        (some (ret.addr + payload_off),
         { free := pre ++ ⟨ret.addr + payload_off + ptr_size * rsize,
                           ret.size - word_size - rsize⟩ :: post
           alloc := ⟨ret.addr, rsize⟩ :: s.alloc
           pool_size := s.pool_size
           free_space := s.free_space - rsize - word_size })

/-- pool_calloc from mpool.c: pool_malloc, then memset(ptr, 0, size).
The third component reports how many payload bytes were zeroed. -/
def pool_calloc (size : Int) (s : PoolState) : Option Int × PoolState × Int :=
  match pool_malloc size s with
  | (none, s1) => (none, s1, 0)
  | (some p, s1) => (some p, s1, size)

/-- Find the header of the allocated block whose base address is a
(the model of reading the block_t that container_of recovers). -/
def lookupAlloc (a : Int) : List Block → Option Block
  | [] => none
  | b :: rest => if b.addr = a then some b else lookupAlloc a rest

/-- Drop the header of the allocated block whose base address is a. -/
def removeAlloc (a : Int) : List Block → List Block
  | [] => []
  | b :: rest => if b.addr = a then rest else b :: removeAlloc a rest

/-- get_loc_to_free from mpool.c, returned as the index the released
block is inserted at: if the free list is singular the single node is
the anchor (index 0); otherwise the first node whose address exceeds
the target's, or the end of the list (the sentinel) if none. -/
def findInsertIdx (base : Int) : List Block → Nat
  | [] => 0
  | b :: rest => if base < b.addr then 0 else findInsertIdx base rest + 1

/-- Index form of get_loc_to_free: the singular shortcut, then the scan. -/
def get_loc_to_free_idx (base : Int) (l : List Block) : Nat :=
  if l.length = 1 then 0 else findInsertIdx base l

/-- list_insert_before at an index. -/
def insertAt : Nat → Block → List Block → List Block
  | 0, x, l => x :: l
  | _ + 1, x, [] => [x]
  | i + 1, x, b :: rest => b :: insertAt i x rest

/-- block_try_merge from mpool.c applied to the nodes at indices i and
i+1 (skipped when either is the sentinel, i.e. out of range): if
(&n1->payload + n1->size) equals n2's address, n2 is list_del-ed, n1's
size grows by word_size + n2.size, and free_space is credited word_size. -/
def mergeAt : Nat → List Block → Int → List Block × Int
  | _, [], fs => ([], fs)
  | 0, [x], fs => ([x], fs)
  | 0, x :: y :: rest, fs =>
    if blockEnd x = y.addr then
      (⟨x.addr, x.size + word_size + y.size⟩ :: rest, fs + word_size)
    else (x :: y :: rest, fs)
  | i + 1, x :: rest, fs =>
    (x :: (mergeAt i rest fs).1, (mergeAt i rest fs).2)

/-- Body of pool_free after the header read: credit free_space with the
released block's size, insert the block at the position returned by
get_loc_to_free, then block_try_merge with the successor and then with
the predecessor (the predecessor merge is skipped at index 0, where the
predecessor is the list head sentinel).  Returns the new free list and
the new free_space. -/
def freeInsertMerge (target : Block) (l : List Block) (fs : Int) : List Block × Int :=
  let i := get_loc_to_free_idx target.addr l
  let m1 := mergeAt i (insertAt i target l) (fs + target.size)
  if i = 0 then m1 else mergeAt (i - 1) m1.1 m1.2

/-- pool_free from mpool.c.  Recovers the header at addr - payload_off
(container_of), then runs freeInsertMerge on it.  Reading the header of
a pointer that is not live is undefined behaviour in the C; the model
returns the state unchanged there, and contract-respecting runs never
reach that branch. -/
def pool_free (addr : Int) (s : PoolState) : PoolState :=
  match lookupAlloc (addr - payload_off) s.alloc with
  | none => s
  | some target =>
    { free := (freeInsertMerge target s.free s.free_space).1
      alloc := removeAlloc target.addr s.alloc
      pool_size := s.pool_size
      free_space := (freeInsertMerge target s.free s.free_space).2 }

/-- pool_realloc from mpool.c: pool_malloc the new size; on failure
return null (the state is whatever pool_malloc left, which on failure
is unchanged); on success memcpy size bytes from the old payload and
pool_free the old block.  The third component reports how many bytes
memcpy copied. -/
def pool_realloc (addr size : Int) (s : PoolState) : Option Int × PoolState × Int :=
  match pool_malloc size s with
  | (none, s1) => (none, s1, 0)
  | (some p, s1) => (some p, pool_free addr s1, size)

/-- One public operation performed on the allocator, restricted by the
caller contract: release and resize may only be applied to a pointer
returned by a previous allocation and still live. -/
inductive Step : PoolState → PoolState → Prop
  | malloc (n : Int) (s : PoolState) : Step s (pool_malloc n s).2
  | calloc (n : Int) (s : PoolState) : Step s (pool_calloc n s).2.1
  | free (addr : Int) (s : PoolState)
      (h : (lookupAlloc (addr - payload_off) s.alloc).isSome = true) :
      Step s (pool_free addr s)
  | realloc (addr n : Int) (s : PoolState)
      (h : (lookupAlloc (addr - payload_off) s.alloc).isSome = true) :
      Step s (pool_realloc addr n s).2.1

/-- States reachable by a caller-contract-respecting sequence: one
successful pool_init from the pristine state, then public operations. -/
inductive Reach : PoolState → Prop
  | init (addr size : Int) (h : (pool_init addr size initState).1 = true) :
      Reach (pool_init addr size initState).2
  | step {s s' : PoolState} : Reach s → Step s s' → Reach s'

/-! Concrete runs used by the claim theorems below.  Every state in
each run was obtained by applying the operations of the model; each
free targets a pointer returned by an earlier allocation and still
live, so all the runs respect the caller contract. -/

/-- Arena of 546 bytes at address 1000, freshly initialised. -/
def sInit : PoolState := (pool_init 1000 546 initState).2

/-- sInit after pool_malloc 4 returned pointer 1008. -/
def sOne : PoolState := (pool_malloc 4 sInit).2

/-- Run behind the C3 counterexample: malloc 4, malloc 496, free 1008. -/
def sC3a : PoolState := (pool_malloc 496 sOne).2

/-- State in which pool_malloc 9 exposes the unrounded first-fit test. -/
def sC3 : PoolState := pool_free 1008 sC3a

/-- Run behind the C6 counterexample: three mallocs of 4 bytes...  -/
def sC6a : PoolState := (pool_malloc 4 sOne).2

/-- ... the third allocation. -/
def sC6b : PoolState := (pool_malloc 4 sC6a).2

/-- ... then the three blocks are released in allocation (FIFO) order. -/
def sC6c : PoolState := pool_free 1008 sC6b

/-- Second FIFO release. -/
def sC6d : PoolState := pool_free 1048 sC6c

/-- Final state of the C6 run: every allocation has been released. -/
def sC6 : PoolState := pool_free 1088 sC6d

/-- Run behind the C5 counterexample, step 1: malloc 5 (pointer 1008). -/
def sC5a : PoolState := (pool_malloc 5 sInit).2

/-- Step 2: malloc 4 (pointer 1080). -/
def sC5b : PoolState := (pool_malloc 4 sC5a).2

/-- Step 3: malloc 12 (pointer 1120). -/
def sC5c : PoolState := (pool_malloc 12 sC5b).2

/-- Step 4: malloc 4 (pointer 1224). -/
def sC5d : PoolState := (pool_malloc 4 sC5c).2

/-- Step 5: free 1008. -/
def sC5e : PoolState := pool_free 1008 sC5d

/-- Step 6: malloc 5 (pointer 1264). -/
def sC5f : PoolState := (pool_malloc 5 sC5e).2

/-- Step 7: free 1120. -/
def sC5g : PoolState := pool_free 1120 sC5f

/-- Step 8: free 1224 (merges into the block at 1112). -/
def sC5h : PoolState := pool_free 1224 sC5g

/-- Step 9: malloc 4 (pointer 1336). -/
def sC5i : PoolState := (pool_malloc 4 sC5h).2

/-- Step 10: free 1080 (two merges leave a block at 1000 of size 40). -/
def sC5j : PoolState := pool_free 1080 sC5i

/-- Step 11: free 1336; the free list becomes singular at 1000 while
the block at 1256 is still allocated above it. -/
def sC5k : PoolState := pool_free 1336 sC5j

/-- Step 12: free 1264; the singular shortcut inserts the block at 1256
in front of the node at 1000, breaking the address order. -/
def sC5 : PoolState := pool_free 1264 sC5k

/-- Sum of the size fields of the blocks on a list. -/
def sumSize (l : List Block) : Int := (l.map Block.size).sum

/-- Strict increase of base addresses along the free list. -/
def AddrSorted (l : List Block) : Prop :=
  List.Pairwise (fun a b => a.addr < b.addr) l

instance : DecidablePred AddrSorted := fun l =>
  List.instDecidablePairwise l

@[simp] theorem sumSize_nil : sumSize [] = 0 := rfl

@[simp] theorem sumSize_cons (b : Block) (l : List Block) :
    sumSize (b :: l) = b.size + sumSize l := by
  simp [sumSize]

theorem sumSize_append (l1 l2 : List Block) :
    sumSize (l1 ++ l2) = sumSize l1 + sumSize l2 := by
  simp [sumSize]

theorem get_loc_to_place_eq (n : Int) :
    ∀ (l pre : List Block) (r : Block) (post : List Block),
      get_loc_to_place n l = some (pre, r, post) → l = pre ++ r :: post := by
  intro l
  induction l with
  | nil => intro pre r post h; simp [get_loc_to_place] at h
  | cons b rest ih =>
    intro pre r post h
    by_cases hb : b.size ≥ n + header_size
    · simp only [get_loc_to_place, if_pos hb, Option.some.injEq, Prod.mk.injEq] at h
      obtain ⟨rfl, rfl, rfl⟩ := h
      simp
    · simp only [get_loc_to_place, if_neg hb] at h
      cases hg : get_loc_to_place n rest with
      | none => rw [hg] at h; cases h
      | some t =>
        obtain ⟨p2, r2, q2⟩ := t
        rw [hg] at h
        simp only [Option.some.injEq, Prod.mk.injEq] at h
        obtain ⟨rfl, rfl, rfl⟩ := h
        simp [ih p2 r2 q2 hg]

theorem pool_malloc_of_fst_none (n : Int) (s : PoolState)
    (h : (pool_malloc n s).1 = none) : pool_malloc n s = (none, s) := by
  by_cases h1 : n ≤ 0
  · simp [pool_malloc, h1]
  · by_cases h2 : s.free_space ≤ round_up n + header_size
    · simp [pool_malloc, h1, h2]
    · cases hg : get_loc_to_place n s.free with
      | none => simp [pool_malloc, h1, h2, hg]
      | some t =>
        obtain ⟨pre, ret, post⟩ := t
        simp [pool_malloc, h1, h2, hg] at h

theorem pool_malloc_inv (n : Int) (s : PoolState)
    (h : s.free_space = sumSize s.free) :
    (pool_malloc n s).2.free_space = sumSize (pool_malloc n s).2.free := by
  by_cases h1 : n ≤ 0
  · simpa [pool_malloc, h1] using h
  · by_cases h2 : s.free_space ≤ round_up n + header_size
    · simpa [pool_malloc, h1, h2] using h
    · cases hg : get_loc_to_place n s.free with
      | none => simpa [pool_malloc, h1, h2, hg] using h
      | some t =>
        obtain ⟨pre, ret, post⟩ := t
        have hsplit := get_loc_to_place_eq n s.free pre ret post hg
        rw [hsplit, sumSize_append, sumSize_cons] at h
        simp [pool_malloc, h1, h2, hg, sumSize_append]
        linarith

theorem pool_calloc_state (n : Int) (s : PoolState) :
    (pool_calloc n s).2.1 = (pool_malloc n s).2 := by
  unfold pool_calloc
  rcases hm : pool_malloc n s with ⟨p, s1⟩
  cases p <;> rfl

theorem sumSize_insertAt :
    ∀ (i : Nat) (x : Block) (l : List Block),
      sumSize (insertAt i x l) = x.size + sumSize l
  | 0, x, l => by simp [insertAt]
  | _ + 1, x, [] => by simp [insertAt]
  | i + 1, x, b :: rest => by
    simp [insertAt, sumSize_insertAt i x rest]
    ring

theorem mergeAt_delta :
    ∀ (i : Nat) (l : List Block) (fs : Int),
      (mergeAt i l fs).2 - sumSize (mergeAt i l fs).1 = fs - sumSize l
  | _, [], fs => by simp [mergeAt]
  | 0, [x], fs => by simp [mergeAt]
  | 0, x :: y :: rest, fs => by
    by_cases hm : blockEnd x = y.addr
    · simp [mergeAt, hm]; ring
    · simp [mergeAt, hm]
  | i + 1, x :: rest, fs => by
    have h := mergeAt_delta i rest fs
    simp [mergeAt]
    linarith

theorem freeInsertMerge_delta (t : Block) (l : List Block) (fs : Int) :
    (freeInsertMerge t l fs).2 - sumSize (freeInsertMerge t l fs).1
      = fs - sumSize l := by
  have h2 := mergeAt_delta (get_loc_to_free_idx t.addr l)
    (insertAt (get_loc_to_free_idx t.addr l) t l) (fs + t.size)
  rw [sumSize_insertAt] at h2
  simp only [freeInsertMerge]
  by_cases hi : get_loc_to_free_idx t.addr l = 0
  · rw [if_pos hi]
    linarith
  · rw [if_neg hi]
    have h3 := mergeAt_delta (get_loc_to_free_idx t.addr l - 1)
      (mergeAt (get_loc_to_free_idx t.addr l)
        (insertAt (get_loc_to_free_idx t.addr l) t l) (fs + t.size)).1
      (mergeAt (get_loc_to_free_idx t.addr l)
        (insertAt (get_loc_to_free_idx t.addr l) t l) (fs + t.size)).2
    linarith

theorem pool_free_inv (addr : Int) (s : PoolState)
    (h : s.free_space = sumSize s.free) :
    (pool_free addr s).free_space = sumSize (pool_free addr s).free := by
  unfold pool_free
  cases hl : lookupAlloc (addr - payload_off) s.alloc with
  | none => simpa using h
  | some target =>
    have hd := freeInsertMerge_delta target s.free s.free_space
    simp only []
    linarith

theorem pool_init_success (addr size : Int) (s : PoolState)
    (h1 : addr ≠ 0) (h2 : header_size < size) :
    pool_init addr size s =
      (true,
       { free := ⟨addr, size - word_size⟩ :: s.free
         alloc := s.alloc
         pool_size := size - word_size
         free_space := size - word_size }) := by
  rw [pool_init, if_neg h1, if_neg (not_le.mpr h2)]

theorem pool_malloc_free_ne_nil (n : Int) (s : PoolState)
    (h : s.free ≠ []) : (pool_malloc n s).2.free ≠ [] := by
  by_cases h1 : n ≤ 0
  · simpa [pool_malloc, h1] using h
  · by_cases h2 : s.free_space ≤ round_up n + header_size
    · simpa [pool_malloc, h1, h2] using h
    · cases hg : get_loc_to_place n s.free with
      | none => simpa [pool_malloc, h1, h2, hg] using h
      | some t =>
        obtain ⟨pre, ret, post⟩ := t
        simp [pool_malloc, h1, h2, hg]

theorem insertAt_ne_nil : ∀ (i : Nat) (x : Block) (l : List Block),
    insertAt i x l ≠ []
  | 0, x, l => by simp [insertAt]
  | _ + 1, x, [] => by simp [insertAt]
  | _ + 1, x, b :: rest => by simp [insertAt]

theorem mergeAt_ne_nil : ∀ (i : Nat) (l : List Block) (fs : Int),
    l ≠ [] → (mergeAt i l fs).1 ≠ []
  | _, [], _ => by intro h; exact absurd rfl h
  | 0, [x], _ => by intro _; simp [mergeAt]
  | 0, x :: y :: rest, fs => by
    intro _
    by_cases hm : blockEnd x = y.addr <;> simp [mergeAt, hm]
  | _ + 1, x :: rest, _ => by intro _; simp [mergeAt]

theorem freeInsertMerge_ne_nil (t : Block) (l : List Block) (fs : Int) :
    (freeInsertMerge t l fs).1 ≠ [] := by
  have hins := insertAt_ne_nil (get_loc_to_free_idx t.addr l) t l
  have hm1 := mergeAt_ne_nil (get_loc_to_free_idx t.addr l)
    (insertAt (get_loc_to_free_idx t.addr l) t l) (fs + t.size) hins
  simp only [freeInsertMerge]
  by_cases hi : get_loc_to_free_idx t.addr l = 0
  · rw [if_pos hi]
    exact hm1
  · rw [if_neg hi]
    exact mergeAt_ne_nil _ _ _ hm1

theorem pool_free_free_ne_nil (addr : Int) (s : PoolState)
    (h : s.free ≠ []) : (pool_free addr s).free ≠ [] := by
  unfold pool_free
  cases hl : lookupAlloc (addr - payload_off) s.alloc with
  | none => simpa using h
  | some target => exact freeInsertMerge_ne_nil target s.free s.free_space

/-- Claim C1.  pool_realloc performs memcpy(ptr, addr, size) with the NEW
size: resizing a live 4-byte block (header at 1000, payload pointer 1008)
to 16 bytes succeeds and copies 16 bytes from the old block, exceeding
min(oldSize, newSize) = 4, so bytes past the old payload are read.  This
contradicts the claim that the number of bytes copied never exceeds
min(oldSize, newSize). -/
theorem c1_realloc_copies_newsize_bytes :
    Reach sOne ∧
    lookupAlloc (1008 - payload_off) sOne.alloc = some ⟨1000, 4⟩ ∧
    (pool_realloc 1008 16 sOne).1 = some 1048 ∧
    (pool_realloc 1008 16 sOne).2.2 = 16 ∧
    ¬ (pool_realloc 1008 16 sOne).2.2 ≤ min 4 16 := by
  refine ⟨?_, by decide, by decide, by decide, by decide⟩
  exact (Reach.init 1000 546 (by decide)).step (Step.malloc 4 sInit)

/-- Claim C2.  In a fresh 546-byte arena, pool_malloc 32 rewrites the
found block's size to 32, gives the remainder size 542 - 4 - 32 = 506
and debits free_space by 32 + word_size, as the claim says; but the
remainder block is written at 1264 = payload start + ptr_size * 32,
i.e. at byte offset 256 past the payload start (the char ** arithmetic
&ret->payload + _size scales by sizeof(char *)), not at byte offset 32
as the claim requires. -/
theorem c2_split_offset_scaled_by_pointer_size :
    Reach sInit ∧
    (pool_malloc 32 sInit).1 = some 1008 ∧
    (pool_malloc 32 sInit).2.free
      = [⟨1008 + ptr_size * round_up 32, 542 - word_size - round_up 32⟩] ∧
    (pool_malloc 32 sInit).2.free = [⟨1264, 506⟩] ∧
    sInit.free_space - (pool_malloc 32 sInit).2.free_space
      = round_up 32 + word_size ∧
    (1264 : Int) ≠ 1008 + round_up 32 := by
  refine ⟨Reach.init 1000 546 (by decide), by decide, by decide, by decide,
    by decide, by decide⟩

/-- Claim C3.  get_loc_to_place is called with the unrounded request:
in the reachable state sC3 (free blocks of sizes 4 and 34, free_space
38), pool_malloc 9 passes the fast-path check, and although no free
block has size at least round_up 9 + header_size = 36 (so the claim
demands a null return), the search accepts the 34-byte block because
34 >= 9 + 24, and pool_malloc returns a pointer. -/
theorem c3_first_fit_uses_unrounded_size :
    Reach sC3 ∧
    ¬ sC3.free_space ≤ round_up 9 + header_size ∧
    (∀ b ∈ sC3.free, b.size < round_up 9 + header_size) ∧
    (pool_malloc 9 sC3).1 = some 5024 := by
  refine ⟨?_, by decide, by decide, by decide⟩
  have h0 : Reach sInit := Reach.init 1000 546 (by decide)
  have h1 : Reach sOne := h0.step (Step.malloc 4 sInit)
  have h2 : Reach sC3a := h1.step (Step.malloc 496 sOne)
  exact h2.step (Step.free 1008 sC3a (by decide))

/-- Claim C4 counterexample.  pool_init list_adds the new block at the
head of the free list without clearing it: re-initialising at address
2000 after a successful initialisation at 1000 succeeds but leaves TWO
nodes on the free list, so the new block is not its sole node. -/
theorem c4_reinit_keeps_old_nodes :
    (pool_init 2000 100 sInit).1 = true ∧
    (pool_init 2000 100 sInit).2.free = [⟨2000, 96⟩, ⟨1000, 542⟩] ∧
    ¬ (pool_init 2000 100 sInit).2.free.length = 1 := by
  refine ⟨by decide, by decide, by decide⟩

/-- Claim C4 as amended.  For every non-null address and capacity
exceeding one header's footprint, pool_init returns true, sets
pool_size = free_space = capacity - word_size and writes a header of
that size at the address; but it PREPENDS that block to the existing
free list, so it is the sole node only when the free list was empty
before the call. -/
theorem c4_init_success_prepends (addr size : Int) (s : PoolState)
    (h1 : addr ≠ 0) (h2 : header_size < size) :
    pool_init addr size s =
      (true,
       { free := ⟨addr, size - word_size⟩ :: s.free
         alloc := s.alloc
         pool_size := size - word_size
         free_space := size - word_size }) :=
  pool_init_success addr size s h1 h2

/-- Witness for c4_init_success_prepends at address 1000, capacity 546,
pristine state. -/
theorem c4_init_success_prepends_witness :
    (1000 : Int) ≠ 0 ∧ header_size < 546 ∧
    pool_init 1000 546 initState =
      (true,
       { free := [⟨1000, 542⟩], alloc := [], pool_size := 542
         free_space := 542 }) :=
  ⟨by decide, by decide,
    (c4_init_success_prepends 1000 546 initState (by decide) (by decide)).trans
      (by decide)⟩

/-- Claim C5.  After the contract-respecting 12-operation run ending in
sC5, the free list is [block 1256, block 1000]: the singular-case
shortcut of get_loc_to_free inserted the released block at 1256 in
front of the single node at 1000, so the free list is NOT strictly
ordered by increasing base address. -/
theorem c5_free_list_order_broken :
    Reach sC5 ∧ sC5.free = [⟨1256, 8⟩, ⟨1000, 530⟩] ∧ ¬ AddrSorted sC5.free := by
  refine ⟨?_, by decide, by decide⟩
  have h0 : Reach sInit := Reach.init 1000 546 (by decide)
  have h1 : Reach sC5a := h0.step (Step.malloc 5 sInit)
  have h2 : Reach sC5b := h1.step (Step.malloc 4 sC5a)
  have h3 : Reach sC5c := h2.step (Step.malloc 12 sC5b)
  have h4 : Reach sC5d := h3.step (Step.malloc 4 sC5c)
  have h5 : Reach sC5e := h4.step (Step.free 1008 sC5d (by decide))
  have h6 : Reach sC5f := h5.step (Step.malloc 5 sC5e)
  have h7 : Reach sC5g := h6.step (Step.free 1120 sC5f (by decide))
  have h8 : Reach sC5h := h7.step (Step.free 1224 sC5g (by decide))
  have h9 : Reach sC5i := h8.step (Step.malloc 4 sC5h)
  have h10 : Reach sC5j := h9.step (Step.free 1080 sC5i (by decide))
  have h11 : Reach sC5k := h10.step (Step.free 1336 sC5j (by decide))
  exact h11.step (Step.free 1264 sC5k (by decide))

/-- Claim C6.  Initialising a 546-byte arena, allocating three 4-byte
blocks and releasing all three in allocation order leaves TWO free
blocks (sizes 12 and 526), not one block of size 546 - word_size = 542:
the merge test compares &n1->payload + n1->size (pointer-scaled) against
the next block while sizes grow by word_size per merge, so blocks split
apart no longer coalesce in this order. -/
theorem c6_fifo_release_leaves_two_blocks :
    Reach sC6 ∧ sC6.alloc = [] ∧
    sC6.free = [⟨1000, 12⟩, ⟨1080, 526⟩] ∧
    ¬ sC6.free.length = 1 ∧
    (∀ b ∈ sC6.free, b.size ≠ 546 - word_size) := by
  refine ⟨?_, by decide, by decide, by decide, by decide⟩
  have h0 : Reach sInit := Reach.init 1000 546 (by decide)
  have h1 : Reach sOne := h0.step (Step.malloc 4 sInit)
  have h2 : Reach sC6a := h1.step (Step.malloc 4 sOne)
  have h3 : Reach sC6b := h2.step (Step.malloc 4 sC6a)
  have h4 : Reach sC6c := h3.step (Step.free 1008 sC6b (by decide))
  have h5 : Reach sC6d := h4.step (Step.free 1048 sC6c (by decide))
  exact h5.step (Step.free 1088 sC6d (by decide))

/-- Every public operation preserves the accounting invariant of C7. -/
theorem step_preserves_inv {s s' : PoolState} (hstep : Step s s')
    (ih : s.free_space = sumSize s.free) :
    s'.free_space = sumSize s'.free := by
  cases hstep with
  | malloc n s => exact pool_malloc_inv n s ih
  | calloc n s =>
    rw [pool_calloc_state]
    exact pool_malloc_inv n s ih
  | free addr s hl => exact pool_free_inv addr s ih
  | realloc addr n s hl =>
    rcases hm : pool_malloc n s with ⟨p, s1⟩
    have hmalloc := pool_malloc_inv n s ih
    rw [hm] at hmalloc
    cases p with
    | none => simpa [pool_realloc, hm] using hmalloc
    | some q =>
      have hfree := pool_free_inv addr s1 hmalloc
      simpa [pool_realloc, hm] using hfree

/-- Claim C7.  In every state reachable by a caller-contract-respecting
sequence (a successful pool_init from the pristine state followed by
public operations whose releases and resizes target live pointers),
pool_free_space equals the sum of the size fields of the free-list
blocks. -/
theorem c7_free_space_matches_free_list (s : PoolState) (h : Reach s) :
    s.free_space = sumSize s.free := by
  induction h with
  | init addr size hinit =>
    by_cases h1 : addr = 0
    · simp [pool_init, h1, initState, sumSize]
    · by_cases h2 : size ≤ header_size
      · simp [pool_init, h1, h2, initState, sumSize]
      · simp [pool_init, h1, h2, initState, sumSize]
  | step hr hstep ih => exact step_preserves_inv hstep ih

/-- Witness for c7_free_space_matches_free_list at the freshly
initialised 546-byte arena. -/
theorem c7_free_space_matches_free_list_witness :
    sInit.free_space = sumSize sInit.free :=
  c7_free_space_matches_free_list sInit (Reach.init 1000 546 (by decide))

/-- Claim C8.  If the internal pool_malloc of a resize fails, the
resize returns null, the entire allocator state (free list, allocated
headers, both counters) is unchanged and zero payload bytes are copied,
so the live block at the given pointer is untouched. -/
theorem c8_failed_resize_preserves_state (addr n : Int) (s : PoolState)
    (b : Block)
    (_hlive : lookupAlloc (addr - payload_off) s.alloc = some b)
    (hfail : (pool_malloc n s).1 = none) :
    pool_realloc addr n s = (none, s, 0) := by
  rw [pool_realloc, pool_malloc_of_fst_none n s hfail]

/-- Witness for c8_failed_resize_preserves_state: resizing the live
4-byte block at payload pointer 1008 to 1000 bytes in a 546-byte arena
fails and changes nothing. -/
theorem c8_failed_resize_preserves_state_witness :
    lookupAlloc (1008 - payload_off) sOne.alloc = some ⟨1000, 4⟩ ∧
    (pool_malloc 1000 sOne).1 = none ∧
    pool_realloc 1008 1000 sOne = (none, sOne, 0) :=
  ⟨by decide, by decide,
    c8_failed_resize_preserves_state 1008 1000 sOne ⟨1000, 4⟩ (by decide)
      (by decide)⟩

/-- Claim C9.  pool_init with a null address or a capacity not
exceeding one header's footprint returns false and leaves the whole
allocator state untouched. -/
theorem c9_invalid_init_rejected (addr size : Int) (s : PoolState)
    (h : addr = 0 ∨ size ≤ header_size) :
    pool_init addr size s = (false, s) := by
  rcases h with h | h
  · rw [pool_init, if_pos h]
  · by_cases h0 : addr = 0
    · rw [pool_init, if_pos h0]
    · rw [pool_init, if_neg h0, if_pos h]

/-- Witness for c9_invalid_init_rejected at the null address. -/
theorem c9_invalid_init_rejected_witness :
    pool_init 0 546 initState = (false, initState) :=
  c9_invalid_init_rejected 0 546 initState (Or.inl rfl)

/-- Every public operation preserves non-emptiness of the free list. -/
theorem step_preserves_ne_nil {s s' : PoolState} (hstep : Step s s')
    (ih : s.free ≠ []) : s'.free ≠ [] := by
  cases hstep with
  | malloc n s => exact pool_malloc_free_ne_nil n s ih
  | calloc n s =>
    rw [pool_calloc_state]
    exact pool_malloc_free_ne_nil n s ih
  | free addr s hl => exact pool_free_free_ne_nil addr s ih
  | realloc addr n s hl =>
    rcases hm : pool_malloc n s with ⟨p, s1⟩
    have h1 := pool_malloc_free_ne_nil n s ih
    rw [hm] at h1
    cases p with
    | none => simpa [pool_realloc, hm] using h1
    | some q =>
      have h2 := pool_free_free_ne_nil addr s1 h1
      simpa [pool_realloc, hm] using h2

/-- Claim C10.  In every state reachable by a caller-contract-respecting
sequence the free list is non-empty: a successful pool_malloc replaces
the found node by the remainder node in place, and pool_free inserts a
node before its at-most-two merges each remove one of at least two. -/
theorem c10_free_list_never_empty (s : PoolState) (h : Reach s) :
    s.free ≠ [] := by
  induction h with
  | init addr size hinit =>
    by_cases h1 : addr = 0
    · rw [pool_init, if_pos h1] at hinit
      simp at hinit
    · by_cases h2 : size ≤ header_size
      · rw [pool_init, if_neg h1, if_pos h2] at hinit
        simp at hinit
      · rw [pool_init_success addr size initState h1 (not_le.mp h2)]
        simp
  | step hr hstep ih => exact step_preserves_ne_nil hstep ih

/-- Witness for c10_free_list_never_empty at the freshly initialised
546-byte arena. -/
theorem c10_free_list_never_empty_witness : sInit.free ≠ [] :=
  c10_free_list_never_empty sInit (Reach.init 1000 546 (by decide))

end MPool
